import Mathlib

/- Verification of the data_cleaning repository: a shallow embedding of
`script/clean_data.py`, `script/clean_tsv_data.py` and
`script/identify_format.py`, with theorems settling the specification's
claims about them.

Modeling conventions:
* Python strings are Lean `String`s; `str.strip`, `str.upper`, `str.lower`
  are modeled on the ASCII fragment the scripts operate on.
* Python `float` values are modeled exactly, as decimal rationals (`Dec`):
  every numeric value these scripts produce is parsed from a decimal
  string, and `str(float)` is modeled by a decimal printer that is
  value-faithful: it prints a string that parses back to the same number,
  which is all the round-trip and SQL-rendering claims depend on
  ("numerically equal, not necessarily string-identical").
* `csv.reader` / `csv.DictWriter` are external-library record codecs, so
  files are modeled at the record level as `List (List String)`; the csv
  module's quoting layer is the identity on records.
* Rational division is written with `mkRat` (equal to `a / b`, see
  `Rat.mkRat_eq_div`) so that concrete instances evaluate in the kernel.
-/

namespace DataClean

/-! ### Python string primitives (ASCII fragment) -/

/-- The characters Python `str.strip()` removes (ASCII whitespace). -/
def isPySpace (c : Char) : Bool :=
  c = ' ' || c = '\t' || c = '\n' || c = '\r' || c = '\x0b' || c = '\x0c'

/-- Model of Python `str.strip()`. -/
def pyStrip (s : String) : String :=
  ⟨((s.data.dropWhile isPySpace).reverse.dropWhile isPySpace).reverse⟩

/-- Model of Python `str.upper()` (ASCII). -/
def pyUpper (s : String) : String := ⟨s.data.map Char.toUpper⟩

/-- Model of Python `str.lower()` (ASCII). -/
def pyLower (s : String) : String := ⟨s.data.map Char.toLower⟩

/-- Model of Python `str.replace(a, b)` for single characters. -/
def pyReplaceChar (s : String) (a b : Char) : String :=
  ⟨s.data.map (fun c => if c = a then b else c)⟩

/-- Python `line.count(d)` for a single-character delimiter `d`. -/
def pyCount (line : String) (d : Char) : Nat := line.data.count d

/-- Python `s.endswith(c)` for a single character `c`. -/
def pyEndsWith (s : String) (c : Char) : Bool :=
  match s.data.getLast? with
  | some x => x = c
  | none => false

/-- Python `s[:-1]`. -/
def pyDropLast (s : String) : String := ⟨s.data.dropLast⟩

/-! ### Exact decimals: the model of Python float values in these scripts -/

/-- An exact decimal number `mant / 10 ^ exp`: the model of a Python float
parsed from a decimal string. -/
structure Dec where
  mant : Int
  exp : Nat
deriving DecidableEq

/-- The rational value of a `Dec`. -/
def Dec.toRat (d : Dec) : ℚ := mkRat d.mant (10 ^ d.exp)

/-- Numeric value of a digit character. -/
def charVal (c : Char) : Nat := c.toNat - 48

/-- Value of a big-endian digit-character string. -/
def digitsToNat (cs : List Char) : Nat :=
  cs.foldl (fun a c => 10 * a + charVal c) 0

/-- The digit character for `d < 10`. -/
def digitChar10 (d : Nat) : Char := Char.ofNat (48 + d)

/-- Little-endian base-10 digits of `n`, by structural fuel recursion
(kernel-computable; `fuel ≥ n` suffices). -/
def natDigitsRev (fuel n : Nat) : List Nat :=
  match fuel with
  | 0 => []
  | fuel + 1 => if n = 0 then [] else (n % 10) :: natDigitsRev fuel (n / 10)

/-- Big-endian decimal digit characters of `n` (no leading zeros). -/
def natToChars (n : Nat) : List Char :=
  if n = 0 then ['0'] else ((natDigitsRev n n).map digitChar10).reverse

/-- Decimal digit test (`0` through `9`). -/
def isDigitChar (c : Char) : Bool := 48 ≤ c.toNat && c.toNat ≤ 57

/-- Parse an unsigned decimal literal (`digits`, `digits.digits`,
`.digits`, `digits.`): the fragment of the Python `float` grammar these
files rely on. -/
def parseUnsigned (cs : List Char) : Option Dec :=
  let intPart := cs.takeWhile isDigitChar
  match cs.dropWhile isDigitChar with
  | [] => if intPart.isEmpty then none else some ⟨digitsToNat intPart, 0⟩
  | c :: rest =>
      if c = '.' then
        if rest.all isDigitChar ∧ ¬(intPart.isEmpty ∧ rest.isEmpty) then
          some ⟨digitsToNat (intPart ++ rest), rest.length⟩
        else none
      else none

/-- Model of Python `float(s)` on the decimal fragment: an optional sign
followed by an unsigned decimal literal; `none` models `ValueError`. -/
def pyFloat (s : String) : Option Dec :=
  match s.data with
  | [] => parseUnsigned []
  | c :: rest =>
      if c = '-' then (parseUnsigned rest).map (fun d => ⟨-d.mant, d.exp⟩)
      else if c = '+' then parseUnsigned rest
      else parseUnsigned (c :: rest)

/-- Decimal digit characters padded on the left with zeros to `k`
digits. -/
def padZeros (cs : List Char) (k : Nat) : List Char :=
  List.replicate (k - cs.length) '0' ++ cs

/-- Model of Python `str(float)` on the `Dec` values these scripts
produce: sign, then the digits with a decimal point inserted, always
showing at least one fractional digit (`str(29.0) = "29.0"`). The model
is value-faithful: the printed string parses back to the same number,
which is all the claims use ("numerically equal, not necessarily
string-identical"). -/
def reprDec (d : Dec) : String :=
  let sign : List Char := if d.mant < 0 then ['-'] else []
  if d.exp = 0 then ⟨sign ++ natToChars d.mant.natAbs ++ ['.', '0']⟩
  else
    let ds := padZeros (natToChars d.mant.natAbs) (d.exp + 1)
    ⟨sign ++ (ds.take (ds.length - d.exp) ++ '.' :: ds.drop (ds.length - d.exp))⟩

/-! ### `clean_numeric_value` and `normalize_column_name`
(`script/clean_data.py`, lines 184-241; `script/clean_tsv_data.py` holds
the identical definitions) -/

/-- `clean_numeric_value` from `script/clean_data.py`: `None` (here
`none`) for empty or `N/A` input, otherwise strip whitespace, strip one
trailing `x`/`X`, then one trailing `%`, then try `float(...)`. -/
def clean_numeric_value (value : String) : Option Dec :=
  if value = "" ∨ pyUpper (pyStrip value) = "N/A" then none
  else
    let cleaned := pyStrip value
    let cleaned1 :=
      if pyEndsWith cleaned 'x' || pyEndsWith cleaned 'X' then pyDropLast cleaned else cleaned
    let cleaned2 :=
      if pyEndsWith cleaned1 '%' then pyDropLast cleaned1 else cleaned1
    pyFloat cleaned2

/-- `normalize_column_name` from `script/clean_data.py`:
`name.lower().replace(' ', '_')`. -/
def normalize_column_name (name : String) : String :=
  pyReplaceChar (pyLower name) ' ' '_'

/-- Reference normalizer, following the words of claim C1: the input is
trimmed; if the trimmed value is empty or case-insensitively `N/A` the
result is Null; otherwise one trailing `x`/`X` is stripped
unconditionally, then independently one trailing `%`, and the remainder
is parsed as a decimal, Null on parse failure. -/
def normalizeRefC1 (value : String) : Option Dec :=
  let t := pyStrip value
  if t = "" ∨ pyUpper t = "N/A" then none
  else
    let c1 := if pyEndsWith t 'x' || pyEndsWith t 'X' then pyDropLast t else t
    let c2 := if pyEndsWith c1 '%' then pyDropLast c1 else c1
    pyFloat c2

/-! ### Delimiter detection (`script/identify_format.py`, lines 44-138) -/

/-- The fixed candidate delimiters, in source (dict insertion) order. -/
def delimiterList : List Char := ['\t', ',', '|', ';']

/-- `DELIMITER_NAMES` from `script/identify_format.py`. -/
def delimiterName (c : Char) : String :=
  if c = '\t' then "TSV"
  else if c = ',' then "CSV"
  else if c = '|' then "PIPE"
  else "SEMICOLON"

/-- Per-line occurrence counts of `d` over the sample
(`[line.count(delim) for line in lines]`). -/
def lineCounts (d : Char) (lines : List String) : List Nat :=
  lines.map (fun l => pyCount l d)

/-- Total occurrence count of `d` over the sample. -/
def totalCount (d : Char) (lines : List String) : Nat :=
  (lineCounts d lines).sum

/-- Python `max(xs, key=key)` over `x :: l`: the earliest element whose
key no element strictly exceeds. -/
def pyMaxBy {α : Type} (key : α → Nat) (x : α) (l : List α) : α :=
  l.foldl (fun b y => if key b < key y then y else b) x

/-- The distinct values of `l` in order of first occurrence (the
insertion order of a Python `Counter` built from `l`). -/
def dedupFirst : List Nat → List Nat
  | [] => []
  | x :: xs => x :: ((dedupFirst xs).filter (fun y => y ≠ x))

/-- `Counter(counts).most_common(1)[0]`: the (value, multiplicity) pair of
largest multiplicity, ties resolved toward the value occurring first. -/
def mostCommonPair (l : List Nat) : Nat × Nat :=
  match dedupFirst l with
  | [] => (0, 0)
  | v :: vs =>
      let m := pyMaxBy (fun x => l.count x) v vs
      (m, l.count m)

/-- `most_common_count` for delimiter `d` over the sample. -/
def modalCount (d : Char) (lines : List String) : Nat :=
  (mostCommonPair (lineCounts d lines)).1

/-- `frequency` (how many sampled lines carry the modal count) for `d`. -/
def modalFreq (d : Char) (lines : List String) : Nat :=
  (mostCommonPair (lineCounts d lines)).2

/-- `consistency = frequency / len(lines)`, as an exact rational
(`mkRat a b = a / b`). The Python comparison `consistency >= 0.6` is
modeled with the exact threshold `3/5`; the float comparison agrees with
the exact one for any sample a file could provide. -/
def consistencyRatio (d : Char) (lines : List String) : ℚ :=
  mkRat (modalFreq d lines) lines.length

/-- One loop iteration of the `scores` computation in `detect_delimiter`
(`script/identify_format.py`, lines 104-120): `none` when the candidate
is discarded. -/
def scoreOf (d : Char) (lines : List String) : Option (Char × Nat × ℚ) :=
  if totalCount d lines = 0 then none
  else if 0 < modalCount d lines ∧ mkRat 3 5 ≤ consistencyRatio d lines then
    some (d, totalCount d lines, consistencyRatio d lines)
  else none

/-- The `scores` dict (candidate, total, consistency), in candidate
order. -/
def scoresList (lines : List String) : List (Char × Nat × ℚ) :=
  delimiterList.filterMap (fun d => scoreOf d lines)

/-- The detection failures of `script/identify_format.py`. -/
inductive DetectErr where
  | fileNotFound
  | emptyInput
  | noDelimiterDetected
deriving DecidableEq

/-- Python tuple comparison `(t1, c1) > (t2, c2)` used by
`max(scores.keys(), key=lambda d: (scores[d][0], scores[d][1]))`. -/
def tupleGt (p q : Nat × ℚ) : Prop :=
  q.1 < p.1 ∨ (p.1 = q.1 ∧ q.2 < p.2)

instance (p q : Nat × ℚ) : Decidable (tupleGt p q) :=
  inferInstanceAs (Decidable (_ ∨ _))

/-- Python `max` over the `scores` keys with the (total, consistency)
key: the earliest maximal entry. -/
def bestScore (x : Char × Nat × ℚ) (l : List (Char × Nat × ℚ)) : Char × Nat × ℚ :=
  l.foldl (fun b y => if tupleGt y.2 b.2 then y else b) x

namespace IdentifyFormat

/-- `detect_delimiter` of `script/identify_format.py` on an already-read
sample of lines: the returned triple is (delimiter char, delimiter name,
confidence), errors model the raised `ValueError`s. -/
def detect_delimiter (lines : List String) : Except DetectErr (Char × String × ℚ) :=
  if lines.isEmpty then .error .emptyInput
  else
    match scoresList lines with
    | [] => .error .noDelimiterDetected
    | s :: ss =>
        let best := bestScore s ss
        .ok (best.1, delimiterName best.1, best.2.2)

end IdentifyFormat

namespace CleanData

/-- `detect_delimiter` of `script/clean_data.py` (lines 92-105) on a
sample: pick the candidate with the highest total count (earliest wins a
tie), raise `ValueError` when its count is zero. -/
def detect_delimiter (lines : List String) : Except DetectErr Char :=
  let detected := pyMaxBy (fun d => totalCount d lines) '\t' [',', '|', ';']
  if totalCount detected lines = 0 then .error .noDelimiterDetected
  else .ok detected

end CleanData

namespace CleanTsv

/-- `detect_delimiter` of `script/clean_tsv_data.py` (lines 89-103) on a
sample: pick the candidate with the highest total count (earliest wins a
tie); there is no zero-count check, so it never fails on a readable
sample. -/
def detect_delimiter (lines : List String) : Char :=
  pyMaxBy (fun d => totalCount d lines) '\t' [',', '|', ';']

end CleanTsv

/-! ### Rows and the table reader (`script/clean_data.py`, lines 244-309) -/

/-- A cleaned cell: the identifier column's trimmed text, a cleaned
numeric value, or Python `None` (semantic NULL). -/
inductive Value where
  | str (s : String)
  | num (d : Dec)
  | null
deriving DecidableEq

/-- A `CleanedRow`: a Python dict as an insertion-ordered association
list. -/
abbrev Row : Type := List (String × Value)

/-- Python dict lookup `row[header]`; `none` models a `KeyError`. -/
def lookupRow (row : Row) (k : String) : Option Value :=
  match row.find? (fun p => p.1 = k) with
  | some p => some p.2
  | none => none

/-- Python dict assignment `row[k] = v`: update in place when the key
exists, otherwise append. -/
def dictInsert (row : Row) (k : String) (v : Value) : Row :=
  if row.any (fun p => p.1 = k) then
    row.map (fun p => if p.1 = k then (k, v) else p)
  else row ++ [(k, v)]

/-- One cell of the cleaning loop (lines 296-302): column 0 is kept as a
trimmed string, every other column goes through `clean_numeric_value`. -/
def cleanCell (i : Nat) (v : String) : Value :=
  if i = 0 then .str (pyStrip v)
  else
    match clean_numeric_value v with
    | some d => .num d
    | none => .null

/-- The `for i, (header, value) in enumerate(zip(headers, row))` loop
building the row dict. -/
def cleanRowGo (acc : Row) (i : Nat) : List (String × String) → Row
  | [] => acc
  | (h, v) :: rest => cleanRowGo (dictInsert acc h (cleanCell i v)) (i + 1) rest

/-- The cleaned row dict of one raw record. -/
def cleanRow (headers : List String) (record : List String) : Row :=
  cleanRowGo [] 0 (headers.zip record)

/-- The cleaned cells of an indexed pair list: what `cleanRowGo` builds
when no header repeats. -/
def cleanPairs (i : Nat) : List (String × String) → Row
  | [] => []
  | (h, v) :: rest => (h, cleanCell i v) :: cleanPairs (i + 1) rest

/-- Python `any(row)`: some field of the record is non-empty. -/
def anyField (record : List String) : Bool :=
  record.any (fun f => f ≠ "")

/-- The data-row loop of `read_and_clean_data` (lines 287-304): records
with no non-empty field are skipped, the rest are cleaned in order. -/
def cleanRows (headers : List String) : List (List String) → List Row
  | [] => []
  | r :: rs =>
      if anyField r then cleanRow headers r :: cleanRows headers rs
      else cleanRows headers rs

/-- The failures of `read_and_clean_data`. -/
inductive ReadErr where
  | fileNotFound
  | noHeaderRow
deriving DecidableEq

/-- `read_and_clean_data` (lines 244-309) on a record-level stream: the
first record becomes the headers (each trimmed), the remaining records
are cleaned; an empty stream is the `No data found` error. -/
def read_and_clean_data : List (List String) → Except ReadErr (List String × List Row)
  | [] => .error .noHeaderRow
  | hs :: rest =>
      let headers := hs.map pyStrip
      .ok (headers, cleanRows headers rest)

/-- The reader applied to a file that may be absent (lines 264-265):
`none` models a path that does not exist. -/
def readFile (file : Option (List (List String))) : Except ReadErr (List String × List Row) :=
  match file with
  | none => .error .fileNotFound
  | some records => read_and_clean_data records

/-! ### The CSV emitter (`script/clean_data.py`, lines 312-343) -/

/-- Rendering of a cell for the CSV writer: the code maps `None` to the
empty string (lines 337-339), and the `csv` module stringifies floats
with `str`. -/
def renderValue : Value → String
  | .str s => s
  | .num d => reprDec d
  | .null => ""

/-- `export_to_csv` at the record level: the header record, then each
row's fields in header order; a key missing from a row dict renders as
the empty string (`DictWriter`'s default `restval`). -/
def export_to_csv (headers : List String) (data : List Row) : List (List String) :=
  headers :: data.map (fun row =>
    headers.map (fun h =>
      match lookupRow row h with
      | some v => renderValue v
      | none => ""))

/-! ### The SQL emitter (`script/clean_data.py`, lines 346-403) -/

/-- The failures of `generate_sql_statements`: empty headers
(`ValueError`, line 365) or a missing key (`KeyError` at the unguarded
`row[header]`, line 389). -/
inductive SqlErr where
  | emptyHeaders
  | keyError (h : String)
deriving DecidableEq

/-- `value.replace("\x27", "\x27\x27")` (line 394): double each embedded
single quote. -/
def sqlEscape (s : String) : String :=
  ⟨s.data.foldr (fun c acc => if c = '\x27' then '\x27' :: '\x27' :: acc else c :: acc) []⟩

/-- SQL value rendering (lines 389-397): `NULL` for `None`, single
quotes with doubling for strings, `str(value)` for floats. -/
def renderSqlValue : Value → String
  | .null => "NULL"
  | .str s => "\x27" ++ sqlEscape s ++ "\x27"
  | .num d => reprDec d

/-- Python `rstrip(",\n")` (line 379). -/
def rstripCommaNL (s : String) : String :=
  ⟨(s.data.reverse.dropWhile (fun c => c = ',' || c = '\n')).reverse⟩

/-- The `CREATE TABLE` statement (lines 370-380). -/
def createTableStmt (headers : List String) (tableName : String) : String :=
  match headers with
  | [] => ""
  | h0 :: rest =>
      let body := "CREATE TABLE " ++ tableName ++ " (\n    " ++
        normalize_column_name h0 ++ " VARCHAR(255) PRIMARY KEY,\n" ++
        String.join (rest.map (fun h => "    " ++ normalize_column_name h ++ " DECIMAL(10, 2),\n"))
      rstripCommaNL body ++ "\n);\n"

/-- One `INSERT` statement (lines 384-401); the error is the `KeyError`
raised when a header is missing from the row dict. -/
def insertStmt (headers : List String) (tableName : String) (row : Row) : Except SqlErr String :=
  (headers.mapM (fun h =>
    match lookupRow row h with
    | some v => Except.ok (renderSqlValue v)
    | none => Except.error (SqlErr.keyError h))).map
  (fun vals =>
    "INSERT INTO " ++ tableName ++ " (" ++
      String.intercalate ", " (headers.map normalize_column_name) ++ ") VALUES (" ++
      String.intercalate ", " vals ++ ");")

/-- `generate_sql_statements`: the schema statement, then one insert per
row in order. -/
def generate_sql_statements (headers : List String) (data : List Row)
    (tableName : String) : Except SqlErr (List String) :=
  if headers.isEmpty then .error .emptyHeaders
  else (data.mapM (insertStmt headers tableName)).map
    (fun inserts => createTableStmt headers tableName :: inserts)

/-! ### Well-formedness for the round-trip claim -/

/-- A table row of the shape the reader itself produces: the identifier
column a trimmed text value, every other column numeric. -/
def GoodRow (vals : List Value) : Prop :=
  match vals with
  | [] => True
  | v :: rest =>
      (∃ s, v = Value.str s ∧ pyStrip s = s) ∧ ∀ u ∈ rest, ∃ d, u = Value.num d

/-- Cell equivalence: equal text, numerically equal decimals
(possibly different representations), or both NULL. -/
def ValEq (a b : Value) : Prop :=
  match a, b with
  | Value.str s, Value.str t => s = t
  | Value.num d, Value.num e => d.toRat = e.toRat
  | Value.null, Value.null => True
  | _, _ => False

/-! ### Helper lemmas on characters and strings -/

theorem charToNat_ofNat (n : Nat) (h : n.isValidChar) : (Char.ofNat n).toNat = n := by
  simp only [Char.ofNat, dif_pos h, Char.ofNatAux, Char.toNat, UInt32.toNat, BitVec.toNat_ofNatLt]

theorem toLower_of_upper (c : Char) (h1 : 65 ≤ c.toNat) (h2 : c.toNat ≤ 90) :
    (c.toLower).toNat = c.toNat + 32 := by
  have hv : (c.toNat + 32).isValidChar := by left; omega
  simp [Char.toLower, h1, h2, charToNat_ofNat _ hv]

theorem toLower_of_not_upper (c : Char) (h : ¬(65 ≤ c.toNat ∧ c.toNat ≤ 90)) :
    c.toLower = c := by
  simp only [Char.toLower]
  rw [if_neg h]

theorem toLower_idem (c : Char) : c.toLower.toLower = c.toLower := by
  by_cases h : 65 ≤ c.toNat ∧ c.toNat ≤ 90
  · have h3 := toLower_of_upper c h.1 h.2
    apply toLower_of_not_upper
    omega
  · rw [toLower_of_not_upper c h, toLower_of_not_upper c h]

theorem pyStrip_empty : pyStrip "" = "" := rfl

theorem pyFloat_empty : pyFloat "" = none := rfl

/-! ### Helper lemmas: Python `max` folds and `Counter.most_common` -/

theorem pyMaxBy_mem {α : Type} (key : α → Nat) (x : α) (l : List α) :
    pyMaxBy key x l = x ∨ pyMaxBy key x l ∈ l := by
  induction l generalizing x with
  | nil => left; rfl
  | cons y ys ih =>
    simp only [pyMaxBy, List.foldl_cons]
    by_cases h : key x < key y
    · rw [if_pos h]
      rcases ih y with h1 | h1
      · right
        have h2 : pyMaxBy key y ys ∈ y :: ys := by rw [h1]; exact List.mem_cons_self y ys
        exact h2
      · right; exact List.mem_cons_of_mem y h1
    · rw [if_neg h]
      rcases ih x with h1 | h1
      · left; exact h1
      · right; exact List.mem_cons_of_mem y h1

theorem pyMaxBy_le {α : Type} (key : α → Nat) (x : α) (l : List α) :
    key x ≤ key (pyMaxBy key x l) ∧ ∀ y ∈ l, key y ≤ key (pyMaxBy key x l) := by
  induction l generalizing x with
  | nil => exact ⟨Nat.le_refl _, by simp⟩
  | cons y ys ih =>
    simp only [pyMaxBy, List.foldl_cons]
    by_cases h : key x < key y
    · rw [if_pos h]
      refine ⟨Nat.le_trans (Nat.le_of_lt h) (ih y).1, ?_⟩
      intro z hz
      rcases List.mem_cons.mp hz with rfl | hz2
      · exact (ih z).1
      · exact (ih y).2 z hz2
    · rw [if_neg h]
      refine ⟨(ih x).1, ?_⟩
      intro z hz
      rcases List.mem_cons.mp hz with rfl | hz2
      · exact Nat.le_trans (Nat.le_of_not_lt h) (ih x).1
      · exact (ih x).2 z hz2

theorem pyMaxBy_eq_of_strict {α : Type} (key : α → Nat) (x : α) (l : List α)
    (d : α) (hd : d = x ∨ d ∈ l)
    (hstrict : ∀ e, (e = x ∨ e ∈ l) → e ≠ d → key e < key d) :
    pyMaxBy key x l = d := by
  by_cases hne : pyMaxBy key x l = d
  · exact hne
  · exfalso
    have hmem := pyMaxBy_mem key x l
    have hle : key d ≤ key (pyMaxBy key x l) := by
      rcases hd with rfl | hd2
      · exact (pyMaxBy_le key d l).1
      · exact (pyMaxBy_le key x l).2 d hd2
    have hlt := hstrict _ hmem hne
    omega

theorem pyMaxBy_eq_self {α : Type} (key : α → Nat) (x : α) (l : List α)
    (h : ∀ y ∈ l, key y ≤ key x) : pyMaxBy key x l = x := by
  induction l with
  | nil => rfl
  | cons y ys ih =>
    simp only [pyMaxBy, List.foldl_cons]
    rw [if_neg (by have := h y (List.mem_cons_self y ys); omega)]
    exact ih (fun z hz => h z (List.mem_cons_of_mem y hz))

theorem tupleGt_irrefl (p : Nat × ℚ) : ¬ tupleGt p p := by
  simp [tupleGt]

theorem tupleGt_asymm {p q : Nat × ℚ} (h : tupleGt p q) : ¬ tupleGt q p := by
  rcases h with h | ⟨he, hlt⟩
  · rintro (h2 | ⟨he2, hlt2⟩)
    · omega
    · omega
  · rintro (h2 | ⟨he2, hlt2⟩)
    · omega
    · exact absurd hlt2 (not_lt.mpr (le_of_lt hlt))

theorem tupleGt_neg_trans {a b c : Nat × ℚ} (h1 : ¬ tupleGt a b) (h2 : ¬ tupleGt b c) :
    ¬ tupleGt a c := by
  simp only [tupleGt, not_or, not_and, not_lt] at h1 h2 ⊢
  obtain ⟨hab1, hab2⟩ := h1
  obtain ⟨hbc1, hbc2⟩ := h2
  refine ⟨le_trans hab1 hbc1, ?_⟩
  intro heq
  have e1 : a.1 = b.1 := by omega
  have e2 : b.1 = c.1 := by omega
  exact le_trans (hab2 e1) (hbc2 e2)

theorem bestScore_mem (x : Char × Nat × ℚ) (l : List (Char × Nat × ℚ)) :
    bestScore x l = x ∨ bestScore x l ∈ l := by
  induction l generalizing x with
  | nil => left; rfl
  | cons y ys ih =>
    simp only [bestScore, List.foldl_cons]
    by_cases h : tupleGt y.2 x.2
    · rw [if_pos h]
      rcases ih y with h1 | h1
      · right
        have h2 : bestScore y ys ∈ y :: ys := by rw [h1]; exact List.mem_cons_self y ys
        exact h2
      · right; exact List.mem_cons_of_mem y h1
    · rw [if_neg h]
      rcases ih x with h1 | h1
      · left; exact h1
      · right; exact List.mem_cons_of_mem y h1

theorem bestScore_not_gt (x : Char × Nat × ℚ) (l : List (Char × Nat × ℚ)) :
    (¬ tupleGt x.2 (bestScore x l).2) ∧ ∀ y ∈ l, ¬ tupleGt y.2 (bestScore x l).2 := by
  induction l generalizing x with
  | nil => exact ⟨tupleGt_irrefl _, by simp⟩
  | cons y ys ih =>
    simp only [bestScore, List.foldl_cons]
    by_cases h : tupleGt y.2 x.2
    · rw [if_pos h]
      refine ⟨tupleGt_neg_trans (tupleGt_asymm h) (ih y).1, ?_⟩
      intro z hz
      rcases List.mem_cons.mp hz with rfl | hz2
      · exact (ih z).1
      · exact (ih y).2 z hz2
    · rw [if_neg h]
      refine ⟨(ih x).1, ?_⟩
      intro z hz
      rcases List.mem_cons.mp hz with rfl | hz2
      · exact tupleGt_neg_trans h (ih x).1
      · exact (ih x).2 z hz2

theorem mem_dedupFirst {x : Nat} : ∀ {l : List Nat}, x ∈ dedupFirst l ↔ x ∈ l := by
  intro l
  induction l with
  | nil => simp [dedupFirst]
  | cons y ys ih =>
    simp only [dedupFirst, List.mem_cons, List.mem_filter]
    constructor
    · rintro (rfl | ⟨hx, _⟩)
      · left; rfl
      · right; exact ih.mp hx
    · rintro (rfl | hx)
      · left; rfl
      · by_cases hxy : x = y
        · left; exact hxy
        · right; exact ⟨ih.mpr hx, by simp [hxy]⟩

theorem mostCommonPair_spec (l : List Nat) (hl : l ≠ []) :
    (mostCommonPair l).1 ∈ l ∧
    (mostCommonPair l).2 = l.count (mostCommonPair l).1 ∧
    ∀ v ∈ l, l.count v ≤ (mostCommonPair l).2 := by
  have hd : dedupFirst l ≠ [] := by
    cases l with
    | nil => exact absurd rfl hl
    | cons a as => simp [dedupFirst]
  obtain ⟨v, vs, hvs⟩ := List.exists_cons_of_ne_nil hd
  have hmc : mostCommonPair l =
      (pyMaxBy (fun x => l.count x) v vs, l.count (pyMaxBy (fun x => l.count x) v vs)) := by
    unfold mostCommonPair
    rw [hvs]
  rw [hmc]
  refine ⟨?_, rfl, ?_⟩
  · have hmem := pyMaxBy_mem (fun x => l.count x) v vs
    have hin : pyMaxBy (fun x => l.count x) v vs ∈ dedupFirst l := by
      rw [hvs]
      rcases hmem with h1 | h1
      · rw [h1]; exact List.mem_cons_self v vs
      · exact List.mem_cons_of_mem v h1
    exact mem_dedupFirst.mp hin
  · intro w hw
    have hw2 : w ∈ dedupFirst l := mem_dedupFirst.mpr hw
    rw [hvs] at hw2
    have hle := pyMaxBy_le (fun x => l.count x) v vs
    rcases List.mem_cons.mp hw2 with rfl | h1
    · exact hle.1
    · exact hle.2 w h1

theorem scoreOf_eq_some {d : Char} {lines : List String} {x : Char × Nat × ℚ} :
    scoreOf d lines = some x ↔
      (totalCount d lines ≠ 0 ∧ 0 < modalCount d lines ∧
       mkRat 3 5 ≤ consistencyRatio d lines ∧
       x = (d, totalCount d lines, consistencyRatio d lines)) := by
  unfold scoreOf
  by_cases h1 : totalCount d lines = 0
  · simp [h1]
  · by_cases h2 : 0 < modalCount d lines ∧ mkRat 3 5 ≤ consistencyRatio d lines
    · simp only [if_neg h1, if_pos h2, Option.some.injEq]
      constructor
      · intro he
        exact ⟨h1, h2.1, h2.2, he.symm⟩
      · intro he
        exact he.2.2.2.symm
    · simp only [if_neg h1, if_neg h2]
      constructor
      · intro he
        exact absurd he (by simp)
      · intro he
        exact absurd ⟨he.2.1, he.2.2.1⟩ h2

theorem mem_scoresList {lines : List String} {x : Char × Nat × ℚ} :
    x ∈ scoresList lines ↔
      (x.1 ∈ delimiterList ∧ totalCount x.1 lines ≠ 0 ∧ 0 < modalCount x.1 lines ∧
       mkRat 3 5 ≤ consistencyRatio x.1 lines ∧
       x = (x.1, totalCount x.1 lines, consistencyRatio x.1 lines)) := by
  unfold scoresList
  rw [List.mem_filterMap]
  constructor
  · rintro ⟨a, ha, hsome⟩
    obtain ⟨h1, h2, h3, rfl⟩ := scoreOf_eq_some.mp hsome
    exact ⟨ha, h1, h2, h3, rfl⟩
  · rintro ⟨hmem, h1, h2, h3, hx⟩
    exact ⟨x.1, hmem, scoreOf_eq_some.mpr ⟨h1, h2, h3, hx⟩⟩

/-! ### Claim theorems: C2, C3, C4 (delimiter detection) -/

/-- C2 counterexample: in the sample `["a,b", "x", "y", "z", "w"]` the
comma has a nonzero total count and consistency ratio `4/5 ≥ 0.6` (four
of five lines share the modal count 0), so under the claim it would be
kept and detection would succeed; but the code also requires the modal
count to be positive, keeps nothing, and fails. -/
theorem C2_keep_filter_counterexample :
    totalCount ',' ["a,b\n", "x\n", "y\n", "z\n", "w\n"] ≠ 0 ∧
    mkRat 3 5 ≤ consistencyRatio ',' ["a,b\n", "x\n", "y\n", "z\n", "w\n"] ∧
    scoresList ["a,b\n", "x\n", "y\n", "z\n", "w\n"] = [] ∧
    IdentifyFormat.detect_delimiter ["a,b\n", "x\n", "y\n", "z\n", "w\n"] =
      .error .noDelimiterDetected := by
  refine ⟨by decide, by decide, by decide, rfl⟩

/-- C2 (amended): in the strict mode, for a non-empty sample, the kept
candidates are exactly those with a nonzero total occurrence count, a
POSITIVE modal occurrence count, and a consistency ratio `≥ 0.6`; the
detector fails with `NoDelimiterDetected` iff no candidate is kept. -/
theorem C2_strict_mode_keep_filter (lines : List String) (h : lines ≠ []) :
    (∀ d : Char,
        (∃ t c, (d, t, c) ∈ scoresList lines) ↔
          (d ∈ delimiterList ∧ totalCount d lines ≠ 0 ∧ 0 < modalCount d lines ∧
           mkRat 3 5 ≤ consistencyRatio d lines)) ∧
    (IdentifyFormat.detect_delimiter lines = .error .noDelimiterDetected ↔
      scoresList lines = []) := by
  constructor
  · intro d
    constructor
    · rintro ⟨t, c, hm⟩
      have h2 := mem_scoresList.mp hm
      exact ⟨h2.1, h2.2.1, h2.2.2.1, h2.2.2.2.1⟩
    · rintro ⟨h1, h2, h3, h4⟩
      exact ⟨totalCount d lines, consistencyRatio d lines,
        mem_scoresList.mpr ⟨h1, h2, h3, h4, rfl⟩⟩
  · unfold IdentifyFormat.detect_delimiter
    rw [if_neg (by simp [h])]
    cases hs : scoresList lines with
    | nil => simp
    | cons s ss => simp

/-- C2 witness: the amended keep-filter theorem applied to the concrete
one-line tab-separated sample. -/
theorem C2_keep_filter_witness :
    (∀ d : Char,
        (∃ t c, (d, t, c) ∈ scoresList ["A\tB\n"]) ↔
          (d ∈ delimiterList ∧ totalCount d ["A\tB\n"] ≠ 0 ∧
           0 < modalCount d ["A\tB\n"] ∧
           mkRat 3 5 ≤ consistencyRatio d ["A\tB\n"])) ∧
    (IdentifyFormat.detect_delimiter ["A\tB\n"] = .error .noDelimiterDetected ↔
      scoresList ["A\tB\n"] = []) :=
  C2_strict_mode_keep_filter ["A\tB\n"] (by decide)

/-- C3: in the strict mode, when at least one candidate is kept, the
detector returns a kept candidate that is maximal by (total count,
consistency ratio) in lexicographic order, and the returned confidence is
exactly that winner's consistency ratio: the fraction of sampled lines
whose occurrence count of the winner equals its modal (most frequent)
occurrence count, a value in `[0, 1]`. -/
theorem C3_strict_mode_winner (lines : List String) (h : lines ≠ [])
    (hne : scoresList lines ≠ []) :
    ∃ d conf,
      IdentifyFormat.detect_delimiter lines = .ok (d, delimiterName d, conf) ∧
      (d, totalCount d lines, consistencyRatio d lines) ∈ scoresList lines ∧
      (∀ e te ce, (e, te, ce) ∈ scoresList lines →
        te < totalCount d lines ∨
          (te = totalCount d lines ∧ ce ≤ consistencyRatio d lines)) ∧
      conf = consistencyRatio d lines ∧
      conf = mkRat ((lineCounts d lines).count (modalCount d lines)) lines.length ∧
      (∀ v ∈ lineCounts d lines,
        (lineCounts d lines).count v ≤ (lineCounts d lines).count (modalCount d lines)) ∧
      0 ≤ conf ∧ conf ≤ 1 := by
  obtain ⟨s, ss, hss⟩ := List.exists_cons_of_ne_nil hne
  have hbmem : bestScore s ss ∈ scoresList lines := by
    rw [hss]
    rcases bestScore_mem s ss with h1 | h1
    · rw [h1]; exact List.mem_cons_self s ss
    · exact List.mem_cons_of_mem s h1
  have hchar := mem_scoresList.mp hbmem
  obtain ⟨hmemd, htot, hmod, hcons, heq⟩ := hchar
  have hcounts_ne : lineCounts (bestScore s ss).1 lines ≠ [] := by
    unfold lineCounts
    simp [h]
  have hmc := mostCommonPair_spec (lineCounts (bestScore s ss).1 lines) hcounts_ne
  refine ⟨(bestScore s ss).1, (bestScore s ss).2.2, ?_, ?_, ?_, ?_, ?_, ?_, ?_, ?_⟩
  · unfold IdentifyFormat.detect_delimiter
    rw [if_neg (by simp [h]), hss]
  · rw [← heq]; exact hbmem
  · intro e te ce hm
    have hng := bestScore_not_gt s ss
    have hne2 : ¬ tupleGt (te, ce) (bestScore s ss).2 := by
      rw [hss] at hm
      rcases List.mem_cons.mp hm with h1 | h1
      · have hs2 : s.2 = (te, ce) := by rw [← h1]
        rw [← hs2]
        exact hng.1
      · exact hng.2 _ h1
    have hb2 : (bestScore s ss).2 = (totalCount (bestScore s ss).1 lines,
        consistencyRatio (bestScore s ss).1 lines) := by
      rw [heq]
    rw [hb2] at hne2
    simp only [tupleGt, not_or, not_and, not_lt] at hne2
    rcases Nat.lt_or_ge te (totalCount (bestScore s ss).1 lines) with h1 | h1
    · exact Or.inl h1
    · have h2 : te = totalCount (bestScore s ss).1 lines := by omega
      exact Or.inr ⟨h2, hne2.2 h2⟩
  · rw [heq]
  · rw [heq]
    show consistencyRatio (bestScore s ss).1 lines = _
    unfold consistencyRatio modalFreq modalCount
    rw [hmc.2.1]
  · intro v hv
    have h2 := hmc.2.2 v hv
    rw [hmc.2.1] at h2
    exact h2
  · rw [heq]
    show (0 : ℚ) ≤ consistencyRatio (bestScore s ss).1 lines
    unfold consistencyRatio
    rw [Rat.mkRat_eq_div]
    positivity
  · rw [heq]
    show consistencyRatio (bestScore s ss).1 lines ≤ 1
    unfold consistencyRatio
    rw [Rat.mkRat_eq_div]
    have hlen : 0 < lines.length := List.length_pos.mpr h
    have hfreq : modalFreq (bestScore s ss).1 lines ≤ lines.length := by
      unfold modalFreq
      rw [hmc.2.1]
      calc (lineCounts (bestScore s ss).1 lines).count (mostCommonPair (lineCounts (bestScore s ss).1 lines)).1
          ≤ (lineCounts (bestScore s ss).1 lines).length := List.count_le_length _ _
        _ = lines.length := by unfold lineCounts; rw [List.length_map]
    rw [div_le_one (by exact_mod_cast hlen)]
    exact_mod_cast hfreq

/-- C3 witness: the winner theorem applied to a concrete two-line
tab-separated sample. -/
theorem C3_strict_mode_winner_witness :
    ∃ d conf,
      IdentifyFormat.detect_delimiter ["A\tB\n", "C\tD\n"] = .ok (d, delimiterName d, conf) ∧
      (d, totalCount d ["A\tB\n", "C\tD\n"], consistencyRatio d ["A\tB\n", "C\tD\n"]) ∈
        scoresList ["A\tB\n", "C\tD\n"] ∧
      (∀ e te ce, (e, te, ce) ∈ scoresList ["A\tB\n", "C\tD\n"] →
        te < totalCount d ["A\tB\n", "C\tD\n"] ∨
          (te = totalCount d ["A\tB\n", "C\tD\n"] ∧
            ce ≤ consistencyRatio d ["A\tB\n", "C\tD\n"])) ∧
      conf = consistencyRatio d ["A\tB\n", "C\tD\n"] ∧
      conf = mkRat ((lineCounts d ["A\tB\n", "C\tD\n"]).count (modalCount d ["A\tB\n", "C\tD\n"]))
        (["A\tB\n", "C\tD\n"] : List String).length ∧
      (∀ v ∈ lineCounts d ["A\tB\n", "C\tD\n"],
        (lineCounts d ["A\tB\n", "C\tD\n"]).count v ≤
          (lineCounts d ["A\tB\n", "C\tD\n"]).count (modalCount d ["A\tB\n", "C\tD\n"])) ∧
      0 ≤ conf ∧ conf ≤ 1 :=
  C3_strict_mode_winner ["A\tB\n", "C\tD\n"] (by decide) (by decide)

/-- C4 counterexample: on the delimiter-free sample `["abc"]` all four
total counts are zero, yet the `clean_tsv_data.py` variant of the simple
mode does not fail: it returns TAB. This refutes the claim's "fails if
and only if all four total counts are zero" for that cited
implementation (only `clean_data.py`'s variant fails there). -/
theorem C4_simple_mode_counterexample :
    (∀ d ∈ delimiterList, totalCount d ["abc\n"] = 0) ∧
    CleanTsv.detect_delimiter ["abc\n"] = '\t' := by
  exact ⟨by decide, rfl⟩

/-- C4 (amended): in the simple detection modes, a candidate whose total
count strictly exceeds every other fixed candidate's is returned by both
implementations; `clean_data.py`'s mode fails iff all four total counts
are zero, while `clean_tsv_data.py`'s variant never fails and returns
TAB on an all-zero sample. -/
theorem C4_simple_mode_amended :
    (∀ (lines : List String) (d : Char), d ∈ delimiterList →
        (∀ e ∈ delimiterList, e ≠ d → totalCount e lines < totalCount d lines) →
        CleanData.detect_delimiter lines = .ok d ∧ CleanTsv.detect_delimiter lines = d) ∧
    (∀ lines : List String,
        CleanData.detect_delimiter lines = .error .noDelimiterDetected ↔
          ∀ d ∈ delimiterList, totalCount d lines = 0) ∧
    (∀ lines : List String, (∀ d ∈ delimiterList, totalCount d lines = 0) →
        CleanTsv.detect_delimiter lines = '\t') := by
  refine ⟨?_, ?_, ?_⟩
  · intro lines d hd hstrict
    have hd2 : d = '\t' ∨ d ∈ [',', '|', ';'] := by
      simpa [delimiterList] using hd
    have hmax : pyMaxBy (fun e => totalCount e lines) '\t' [',', '|', ';'] = d := by
      apply pyMaxBy_eq_of_strict
      · exact hd2
      · intro e he hne
        apply hstrict
        · simpa [delimiterList] using he
        · exact hne
    have hpos : totalCount d lines ≠ 0 := by
      have hother : ∃ e ∈ delimiterList, e ≠ d := by
        by_cases hc : d = '\t'
        · exact ⟨',', by simp [delimiterList], by rw [hc]; decide⟩
        · exact ⟨'\t', by simp [delimiterList], fun he => hc he.symm⟩
      obtain ⟨e, he, hne⟩ := hother
      have := hstrict e he hne
      omega
    constructor
    · unfold CleanData.detect_delimiter
      simp only [hmax]
      rw [if_neg hpos]
    · unfold CleanTsv.detect_delimiter
      exact hmax
  · intro lines
    constructor
    · intro herr d hd
      by_cases h0 : totalCount (pyMaxBy (fun e => totalCount e lines) '\t' [',', '|', ';']) lines = 0
      · have hle := pyMaxBy_le (fun e => totalCount e lines) '\t' [',', '|', ';']
        have hd2 : d = '\t' ∨ d ∈ [',', '|', ';'] := by
          simpa [delimiterList] using hd
        rcases hd2 with rfl | hmem
        · have h1 := hle.1
          omega
        · have h1 := hle.2 d hmem
          omega
      · exfalso
        have hok : CleanData.detect_delimiter lines =
            .ok (pyMaxBy (fun e => totalCount e lines) '\t' [',', '|', ';']) := by
          unfold CleanData.detect_delimiter
          simp [h0]
        rw [hok] at herr
        exact absurd herr (by simp)
    · intro hall
      have h0 : totalCount (pyMaxBy (fun e => totalCount e lines) '\t' [',', '|', ';']) lines = 0 := by
        apply hall
        rcases pyMaxBy_mem (fun e => totalCount e lines) '\t' [',', '|', ';'] with h1 | h1
        · rw [h1]; decide
        · simp only [List.mem_cons] at h1
          rcases h1 with h1 | h1 | h1 | h1
          · rw [h1]; decide
          · rw [h1]; decide
          · rw [h1]; decide
          · exact absurd h1 (List.not_mem_nil _)
      unfold CleanData.detect_delimiter
      simp [h0]
  · intro lines hall
    unfold CleanTsv.detect_delimiter
    apply pyMaxBy_eq_self
    intro y hy
    have h1 : totalCount y lines = 0 := by
      apply hall
      simp only [List.mem_cons] at hy
      rcases hy with h | h | h | h
      · rw [h]; decide
      · rw [h]; decide
      · rw [h]; decide
      · exact absurd h (List.not_mem_nil _)
    have h2 : totalCount '\t' lines = 0 := hall '\t' (by decide)
    omega

/-- C4 witness: a sample with two tabs and one comma, on which both
simple modes return TAB. -/
theorem C4_simple_mode_witness :
    CleanData.detect_delimiter ["a\tb\tc,d\n"] = .ok '\t' ∧
    CleanTsv.detect_delimiter ["a\tb\tc,d\n"] = '\t' :=
  C4_simple_mode_amended.1 ["a\tb\tc,d\n"] '\t' (by decide) (by decide)

/-! ### Claim theorems: C1 and C8 -/

/-- C1: `clean_numeric_value` agrees with the reference definition built
from the spec's words on every input string, and takes the specified
values on the seven listed inputs (`20.8x`, `29%`, `-6%`, `N/A`, `n/a`,
the empty string, `invalid`). -/
theorem C1_clean_numeric_value_matches_reference :
    (∀ s : String, clean_numeric_value s = normalizeRefC1 s) ∧
    (clean_numeric_value "20.8x").map Dec.toRat = some (20.8 : ℚ) ∧
    (clean_numeric_value "29%").map Dec.toRat = some (29.0 : ℚ) ∧
    (clean_numeric_value "-6%").map Dec.toRat = some (-6.0 : ℚ) ∧
    clean_numeric_value "N/A" = none ∧
    clean_numeric_value "n/a" = none ∧
    clean_numeric_value "" = none ∧
    clean_numeric_value "invalid" = none := by
  refine ⟨?_, ?_, ?_, ?_, by decide, by decide, by decide, by decide⟩
  · intro s
    by_cases h0 : s = ""
    · subst h0; decide
    · by_cases hstrip : pyStrip s = ""
      · simp [clean_numeric_value, normalizeRefC1, h0, hstrip]
        decide
      · simp [clean_numeric_value, normalizeRefC1, h0, hstrip]
  · have h : clean_numeric_value "20.8x" = some ⟨208, 1⟩ := by decide
    rw [h]
    simp [Dec.toRat]
    rw [Rat.mkRat_eq_div]
    norm_num
  · have h : clean_numeric_value "29%" = some ⟨29, 0⟩ := by decide
    rw [h]
    simp [Dec.toRat]
    norm_num
  · have h : clean_numeric_value "-6%" = some ⟨-6, 0⟩ := by decide
    rw [h]
    simp [Dec.toRat]
    norm_num

/-- C8: `normalize_column_name` is idempotent, and lowercases with spaces
replaced by underscores: `"Current ARR Multiple"` becomes
`"current_arr_multiple"`. -/
theorem C8_normalize_column_name_idempotent :
    (∀ x : String, normalize_column_name (normalize_column_name x) = normalize_column_name x) ∧
    normalize_column_name "Current ARR Multiple" = "current_arr_multiple" := by
  constructor
  · intro x
    simp only [normalize_column_name, pyReplaceChar, pyLower, List.map_map]
    apply congrArg
    apply List.map_congr_left
    intro c _
    simp only [Function.comp_apply]
    by_cases hsp : c.toLower = ' '
    · rw [hsp]; decide
    · rw [if_neg hsp, toLower_idem, if_neg hsp]
  · decide

/-! ### Helper lemmas for the SQL emitter -/

theorem mapM_ok {α β ε : Type} (l : List α) (f : α → Except ε β) (g : α → β)
    (h : ∀ a ∈ l, f a = .ok (g a)) : l.mapM f = .ok (l.map g) := by
  induction l with
  | nil => rfl
  | cons a as ih =>
    rw [List.mapM_cons, h a (List.mem_cons_self a as),
      ih (fun x hx => h x (List.mem_cons_of_mem a hx))]
    rfl

theorem insertStmt_ok (headers : List String) (t : String) (row : Row)
    (h : ∀ hd ∈ headers, (lookupRow row hd).isSome) :
    insertStmt headers t row = .ok
      ("INSERT INTO " ++ t ++ " (" ++
        String.intercalate ", " (headers.map normalize_column_name) ++ ") VALUES (" ++
        String.intercalate ", "
          (headers.map (fun hd => renderSqlValue ((lookupRow row hd).getD .null))) ++ ");") := by
  unfold insertStmt
  rw [mapM_ok headers _ (fun hd => renderSqlValue ((lookupRow row hd).getD .null)) ?_]
  · rfl
  · intro a ha
    obtain ⟨v, hv⟩ := Option.isSome_iff_exists.mp (h a ha)
    simp only [hv, Option.getD_some]

/-! ### Claim theorems: C6 (SQL generation) -/

/-- C6: for a non-empty header list and rows that map every header, the
generated statements are the schema statement followed by exactly one
insert per row in original order (count `1 + number of rows`), columns
in header order, with `NULL` for absent values, single-quoted text with
embedded quotes doubled (`O'Reilly` becomes `'O''Reilly'`), and the
default decimal string form for numeric values. -/
theorem C6_sql_statements (h0 : String) (hrest : List String) (data : List Row) (t : String)
    (hall : ∀ row ∈ data, ∀ hd ∈ h0 :: hrest, (lookupRow row hd).isSome) :
    ∃ inserts,
      generate_sql_statements (h0 :: hrest) data t =
        .ok (createTableStmt (h0 :: hrest) t :: inserts) ∧
      inserts.length = data.length ∧
      inserts = data.map (fun row =>
        "INSERT INTO " ++ t ++ " (" ++
        String.intercalate ", " ((h0 :: hrest).map normalize_column_name) ++ ") VALUES (" ++
        String.intercalate ", "
          ((h0 :: hrest).map (fun hd => renderSqlValue ((lookupRow row hd).getD .null))) ++ ");") ∧
      renderSqlValue (.str "O\x27Reilly") = "\x27O\x27\x27Reilly\x27" ∧
      renderSqlValue .null = "NULL" ∧
      (∀ d : Dec, renderSqlValue (.num d) = reprDec d) := by
  refine ⟨data.map (fun row =>
        "INSERT INTO " ++ t ++ " (" ++
        String.intercalate ", " ((h0 :: hrest).map normalize_column_name) ++ ") VALUES (" ++
        String.intercalate ", "
          ((h0 :: hrest).map (fun hd => renderSqlValue ((lookupRow row hd).getD .null))) ++ ");"),
    ?_, by simp, rfl, by decide, rfl, fun d => rfl⟩
  unfold generate_sql_statements
  rw [if_neg (by simp)]
  rw [mapM_ok data _ _ (fun row hrow => insertStmt_ok (h0 :: hrest) t row (hall row hrow))]
  rfl

/-- C6 witness: one row holding the company name `O'Reilly` and the
multiple `20.8`. -/
theorem C6_sql_statements_witness :
    ∃ inserts,
      generate_sql_statements ["Company", "Current ARR Multiple"]
          [[("Company", Value.str "O\x27Reilly"), ("Current ARR Multiple", Value.num ⟨208, 1⟩)]]
          "company_metrics" =
        .ok (createTableStmt ["Company", "Current ARR Multiple"] "company_metrics" :: inserts) ∧
      inserts.length =
        ([[("Company", Value.str "O\x27Reilly"),
           ("Current ARR Multiple", Value.num ⟨208, 1⟩)]] : List Row).length ∧
      inserts = ([[("Company", Value.str "O\x27Reilly"),
           ("Current ARR Multiple", Value.num ⟨208, 1⟩)]] : List Row).map (fun row =>
        "INSERT INTO " ++ "company_metrics" ++ " (" ++
        String.intercalate ", " ((["Company", "Current ARR Multiple"] : List String).map normalize_column_name) ++ ") VALUES (" ++
        String.intercalate ", "
          ((["Company", "Current ARR Multiple"] : List String).map
            (fun hd => renderSqlValue ((lookupRow row hd).getD .null))) ++ ");") ∧
      renderSqlValue (.str "O\x27Reilly") = "\x27O\x27\x27Reilly\x27" ∧
      renderSqlValue .null = "NULL" ∧
      (∀ d : Dec, renderSqlValue (.num d) = reprDec d) :=
  C6_sql_statements "Company" ["Current ARR Multiple"]
    [[("Company", Value.str "O\x27Reilly"), ("Current ARR Multiple", Value.num ⟨208, 1⟩)]]
    "company_metrics" (by decide)

/-! ### Claim theorems: C9, C5, C10 (the table reader and its consumers) -/

/-- C9: the reader fails with `FileNotFound` when the file does not
exist, fails with `NoHeaderRow` exactly when the opened stream yields no
first record, and otherwise turns the first record into the
whitespace-trimmed header list. -/
theorem C9_reader_header_contract :
    readFile none = .error .fileNotFound ∧
    (∀ records : List (List String),
      readFile (some records) = .error .noHeaderRow ↔ records = []) ∧
    (∀ (hs : List String) (rest : List (List String)),
      ∃ rows, readFile (some (hs :: rest)) = .ok (hs.map pyStrip, rows)) := by
  refine ⟨rfl, ?_, ?_⟩
  · intro records
    cases records with
    | nil => simp [readFile, read_and_clean_data]
    | cons hs rest => simp [readFile, read_and_clean_data]
  · intro hs rest
    exact ⟨cleanRows (hs.map pyStrip) rest, rfl⟩

/-- C5: a record with no non-empty field (Python `not any(row)`, i.e.
all fields the empty string) is skipped entirely: the cleaned rows are
exactly the non-blank records cleaned in their original order, blank
records contribute nothing to the row count, and the CSV output has
exactly one record per surviving row after the header (the SQL side,
one insert per surviving row, is the C6 theorem). -/
theorem C5_blank_records_skipped :
    (∀ r : List String, anyField r = false ↔ ∀ f ∈ r, f = "") ∧
    (∀ (headers : List String) (recs : List (List String)),
      cleanRows headers recs = (recs.filter anyField).map (cleanRow headers)) ∧
    (∀ (headers : List String) (recs : List (List String)),
      (cleanRows headers recs).length = (recs.filter anyField).length) ∧
    (∀ (headers : List String) (recs : List (List String)),
      (export_to_csv headers (cleanRows headers recs)).length =
        1 + (recs.filter anyField).length) := by
  have h2 : ∀ (headers : List String) (recs : List (List String)),
      cleanRows headers recs = (recs.filter anyField).map (cleanRow headers) := by
    intro headers recs
    induction recs with
    | nil => rfl
    | cons r rs ih =>
      by_cases h : anyField r = true
      · simp [cleanRows, List.filter_cons, h, ih]
      · simp [cleanRows, List.filter_cons, h, ih]
  refine ⟨?_, h2, ?_, ?_⟩
  · intro r
    simp [anyField, List.any_eq_false]
  · intro headers recs
    rw [h2]
    simp
  · intro headers recs
    rw [h2]
    simp [export_to_csv]
    omega

/-- C10: a record with fewer fields than headers loses its trailing
headers to the positional zip; `generate_sql_statements` then fails with
the `KeyError` on the missing header at the unguarded `row[header]`
lookup, while `export_to_csv` on the same reader output succeeds and
renders the missing trailing field as empty. -/
theorem C10_short_row_keyerror_asymmetry :
    read_and_clean_data [["a", "b", "c"], ["x", "1"]] =
      .ok (["a", "b", "c"], [[("a", Value.str "x"), ("b", Value.num ⟨1, 0⟩)]]) ∧
    lookupRow [("a", Value.str "x"), ("b", Value.num ⟨1, 0⟩)] "c" = none ∧
    generate_sql_statements ["a", "b", "c"]
        [[("a", Value.str "x"), ("b", Value.num ⟨1, 0⟩)]] "t" =
      .error (SqlErr.keyError "c") ∧
    export_to_csv ["a", "b", "c"] [[("a", Value.str "x"), ("b", Value.num ⟨1, 0⟩)]] =
      [["a", "b", "c"], ["x", "1.0", ""]] := by
  exact ⟨rfl, rfl, rfl, rfl⟩

/-! ### Helper lemmas: decimal printing parses back (for the round trip) -/

theorem charVal_digitChar (d : Nat) (h : d < 10) : charVal (digitChar10 d) = d := by
  have hv : (48 + d).isValidChar := by left; omega
  simp [charVal, digitChar10, charToNat_ofNat _ hv]

theorem isDigitChar_digitChar (d : Nat) (h : d < 10) : isDigitChar (digitChar10 d) = true := by
  have hv : (48 + d).isValidChar := by left; omega
  simp [isDigitChar, digitChar10, charToNat_ofNat _ hv]
  omega

theorem isDigitChar_bounds {c : Char} (h : isDigitChar c = true) :
    48 ≤ c.toNat ∧ c.toNat ≤ 57 := by
  simpa [isDigitChar] using h

theorem digitsToNat_go (cs : List Char) (a : Nat) :
    cs.foldl (fun a c => 10 * a + charVal c) a = a * 10 ^ cs.length + digitsToNat cs := by
  induction cs generalizing a with
  | nil => simp [digitsToNat]
  | cons c cs ih =>
    show List.foldl _ (10 * a + charVal c) cs = _
    rw [ih]
    have h2 : digitsToNat (c :: cs) = charVal c * 10 ^ cs.length + digitsToNat cs := by
      show List.foldl _ (10 * 0 + charVal c) cs = _
      rw [ih]
      ring_nf
    rw [h2]
    simp only [List.length_cons, pow_succ]
    ring

theorem digitsToNat_append (xs ys : List Char) :
    digitsToNat (xs ++ ys) = digitsToNat xs * 10 ^ ys.length + digitsToNat ys := by
  show List.foldl _ 0 (xs ++ ys) = _
  rw [List.foldl_append]
  exact digitsToNat_go ys (digitsToNat xs)

theorem digitsToNat_replicate_zero (k : Nat) : digitsToNat (List.replicate k '0') = 0 := by
  induction k with
  | zero => rfl
  | succ k ih =>
    show digitsToNat ('0' :: List.replicate k '0') = 0
    have h : digitsToNat ('0' :: List.replicate k '0') =
        charVal '0' * 10 ^ k + digitsToNat (List.replicate k '0') := by
      have := digitsToNat_append ['0'] (List.replicate k '0')
      simpa [digitsToNat] using this
    rw [h, ih]
    have h0 : charVal '0' = 0 := rfl
    rw [h0]
    simp

theorem digitsToNat_padZeros (cs : List Char) (k : Nat) :
    digitsToNat (padZeros cs k) = digitsToNat cs := by
  unfold padZeros
  rw [digitsToNat_append, digitsToNat_replicate_zero]
  ring_nf

theorem natDigitsRev_lt (fuel n : Nat) : ∀ d ∈ natDigitsRev fuel n, d < 10 := by
  induction fuel generalizing n with
  | zero => intro d hd; simp [natDigitsRev] at hd
  | succ fuel ih =>
    intro d hd
    unfold natDigitsRev at hd
    by_cases h : n = 0
    · simp [h] at hd
    · rw [if_neg h] at hd
      rcases List.mem_cons.mp hd with rfl | hd2
      · exact Nat.mod_lt _ (by omega)
      · exact ih (n / 10) d hd2

theorem digitsToNat_natDigitsRev (fuel : Nat) :
    ∀ n : Nat, n ≤ fuel →
      digitsToNat (((natDigitsRev fuel n).map digitChar10).reverse) = n := by
  induction fuel with
  | zero =>
    intro n hn
    have h : n = 0 := by omega
    subst h
    rfl
  | succ fuel ih =>
    intro n hn
    unfold natDigitsRev
    by_cases h : n = 0
    · subst h; rfl
    · rw [if_neg h]
      rw [List.map_cons, List.reverse_cons, digitsToNat_append]
      have hdiv : n / 10 ≤ fuel := by
        have h1 : n / 10 < n := Nat.div_lt_self (by omega) (by omega)
        omega
      rw [ih (n / 10) hdiv]
      have hmod : n % 10 < 10 := Nat.mod_lt _ (by omega)
      have h2 : digitsToNat [digitChar10 (n % 10)] = n % 10 := by
        show 10 * 0 + charVal (digitChar10 (n % 10)) = n % 10
        rw [charVal_digitChar _ hmod]
        omega
      rw [h2]
      simp only [List.length_singleton, pow_one]
      omega

theorem digitsToNat_natToChars (n : Nat) : digitsToNat (natToChars n) = n := by
  unfold natToChars
  by_cases h : n = 0
  · subst h; rfl
  · rw [if_neg h]
    exact digitsToNat_natDigitsRev n n (Nat.le_refl n)

theorem natToChars_ne_nil (n : Nat) : natToChars n ≠ [] := by
  unfold natToChars
  by_cases h : n = 0
  · simp [h]
  · rw [if_neg h]
    obtain ⟨m, rfl⟩ : ∃ m, n = m + 1 := ⟨n - 1, by omega⟩
    show ((natDigitsRev (m + 1) (m + 1)).map digitChar10).reverse ≠ []
    unfold natDigitsRev
    rw [if_neg h]
    simp

theorem natToChars_all_digits (n : Nat) : ∀ c ∈ natToChars n, isDigitChar c = true := by
  unfold natToChars
  by_cases h : n = 0
  · rw [if_pos h]
    intro c hc
    simp at hc
    subst hc
    decide
  · rw [if_neg h]
    intro c hc
    rw [List.mem_reverse] at hc
    obtain ⟨d, hd, rfl⟩ := List.mem_map.mp hc
    exact isDigitChar_digitChar d (natDigitsRev_lt n n d hd)

theorem takeWhile_digits_append (A : List Char) (x : Char) (B : List Char)
    (hA : ∀ c ∈ A, isDigitChar c = true) (hx : isDigitChar x = false) :
    (A ++ x :: B).takeWhile isDigitChar = A ∧
    (A ++ x :: B).dropWhile isDigitChar = x :: B := by
  induction A with
  | nil => simp [List.takeWhile_cons, List.dropWhile_cons, hx]
  | cons a A ih =>
    have ha : isDigitChar a = true := hA a (List.mem_cons_self a A)
    have ih2 := ih (fun c hc => hA c (List.mem_cons_of_mem a hc))
    constructor
    · simp only [List.cons_append, List.takeWhile_cons, ha, if_true, ih2.1]
    · simp only [List.cons_append, List.dropWhile_cons, ha, if_true, ih2.2]

theorem digit_ne_special {c : Char} (h : isDigitChar c = true) :
    c ≠ '-' ∧ c ≠ '+' ∧ c ≠ '.' := by
  refine ⟨?_, ?_, ?_⟩ <;> rintro rfl <;> revert h <;> decide

/-- Parse of a rendered integer-and-fraction digit string: the core of
the round-trip argument. -/
theorem parseUnsigned_digits (A B : List Char)
    (hA : ∀ c ∈ A, isDigitChar c = true) (hB : ∀ c ∈ B, isDigitChar c = true)
    (hAne : A ≠ []) :
    parseUnsigned (A ++ '.' :: B) = some ⟨digitsToNat (A ++ B), B.length⟩ := by
  have hspan := takeWhile_digits_append A '.' B hA (by decide)
  have hAe : A.isEmpty = false := by
    cases A with
    | nil => exact absurd rfl hAne
    | cons a as => rfl
  simp [parseUnsigned, hspan.1, hspan.2, hAe, List.all_eq_true]
  exact hB

theorem pyFloat_of_digit_head (s : String) (c : Char) (cs : List Char)
    (hs : s.data = c :: cs) (hc : isDigitChar c = true) :
    pyFloat s = parseUnsigned (c :: cs) := by
  simp only [pyFloat, hs]
  rw [if_neg (digit_ne_special hc).1, if_neg (digit_ne_special hc).2.1]

theorem pyFloat_of_neg_head (s : String) (cs : List Char) (hs : s.data = '-' :: cs) :
    pyFloat s = (parseUnsigned cs).map (fun d => ⟨-d.mant, d.exp⟩) := by
  simp [pyFloat, hs]

theorem dec_toRat_eq (a : Int) (e : Nat) : Dec.toRat ⟨a, e⟩ = (a : ℚ) / 10 ^ e := by
  show mkRat a (10 ^ e) = _
  rw [Rat.mkRat_eq_div]
  push_cast
  rfl

theorem toRat_ten_shift (a : Int) (e : Nat) :
    Dec.toRat ⟨10 * a, e + 1⟩ = Dec.toRat ⟨a, e⟩ := by
  rw [dec_toRat_eq, dec_toRat_eq]
  push_cast
  rw [pow_succ]
  have h10 : (10 : ℚ) ≠ 0 := by norm_num
  have hpe : (10 : ℚ) ^ e ≠ 0 := pow_ne_zero e h10
  field_simp
  ring

theorem padZeros_all_digits (n k : Nat) :
    ∀ c ∈ padZeros (natToChars n) k, isDigitChar c = true := by
  intro c hc
  unfold padZeros at hc
  rcases List.mem_append.mp hc with h1 | h1
  · have := List.eq_of_mem_replicate h1
    subst this
    decide
  · exact natToChars_all_digits n c h1

theorem padZeros_length (cs : List Char) (k : Nat) :
    (padZeros cs k).length = max k cs.length := by
  unfold padZeros
  rw [List.length_append, List.length_replicate]
  omega

theorem parse_render_e0 (n : Nat) :
    parseUnsigned (natToChars n ++ '.' :: ['0']) = some ⟨(10 * n : Nat), 1⟩ := by
  rw [parseUnsigned_digits (natToChars n) ['0'] (natToChars_all_digits n)
    (by intro c hc; simp at hc; subst hc; decide) (natToChars_ne_nil n)]
  have hval : digitsToNat (natToChars n ++ ['0']) = 10 * n := by
    rw [digitsToNat_append, digitsToNat_natToChars]
    have h0 : digitsToNat ['0'] = 0 := rfl
    rw [h0]
    simp
    ring
  rw [hval]
  rfl

theorem parse_render_pos (n e : Nat) (_he : e ≠ 0) :
    parseUnsigned
      ((padZeros (natToChars n) (e + 1)).take ((padZeros (natToChars n) (e + 1)).length - e) ++
        '.' :: (padZeros (natToChars n) (e + 1)).drop ((padZeros (natToChars n) (e + 1)).length - e)) =
      some ⟨(n : Nat), e⟩ := by
  have hlen := padZeros_length (natToChars n) (e + 1)
  have hge : e + 1 ≤ (padZeros (natToChars n) (e + 1)).length := by omega
  have hA : ∀ c ∈ (padZeros (natToChars n) (e + 1)).take
      ((padZeros (natToChars n) (e + 1)).length - e), isDigitChar c = true :=
    fun c hc => padZeros_all_digits n (e + 1) c (List.take_subset _ _ hc)
  have hB : ∀ c ∈ (padZeros (natToChars n) (e + 1)).drop
      ((padZeros (natToChars n) (e + 1)).length - e), isDigitChar c = true :=
    fun c hc => padZeros_all_digits n (e + 1) c (List.drop_subset _ _ hc)
  have hAne : (padZeros (natToChars n) (e + 1)).take
      ((padZeros (natToChars n) (e + 1)).length - e) ≠ [] := by
    apply List.ne_nil_of_length_pos
    rw [List.length_take]
    omega
  rw [parseUnsigned_digits _ _ hA hB hAne]
  have hval : digitsToNat
      ((padZeros (natToChars n) (e + 1)).take ((padZeros (natToChars n) (e + 1)).length - e) ++
        (padZeros (natToChars n) (e + 1)).drop ((padZeros (natToChars n) (e + 1)).length - e)) = n := by
    rw [List.take_append_drop, digitsToNat_padZeros, digitsToNat_natToChars]
  have hblen : ((padZeros (natToChars n) (e + 1)).drop
      ((padZeros (natToChars n) (e + 1)).length - e)).length = e := by
    rw [List.length_drop]
    omega
  rw [hval, hblen]

theorem reprDec_data_e0 (d : Dec) (h : d.exp = 0) :
    (reprDec d).data =
      (if d.mant < 0 then ['-'] else []) ++ (natToChars d.mant.natAbs ++ '.' :: ['0']) := by
  simp only [reprDec, h, if_pos rfl]
  rw [List.append_assoc]
  rfl

theorem reprDec_data_pos (d : Dec) (h : d.exp ≠ 0) :
    (reprDec d).data =
      (if d.mant < 0 then ['-'] else []) ++
        ((padZeros (natToChars d.mant.natAbs) (d.exp + 1)).take
            ((padZeros (natToChars d.mant.natAbs) (d.exp + 1)).length - d.exp) ++
          '.' :: (padZeros (natToChars d.mant.natAbs) (d.exp + 1)).drop
            ((padZeros (natToChars d.mant.natAbs) (d.exp + 1)).length - d.exp)) := by
  simp only [reprDec, if_neg h]

/-- The printed decimal parses back to a numerically equal decimal. -/
theorem pyFloat_reprDec (d : Dec) :
    ∃ d', pyFloat (reprDec d) = some d' ∧ d'.toRat = d.toRat := by
  by_cases hneg : d.mant < 0
  all_goals by_cases hexp : d.exp = 0
  · -- negative mantissa, exp 0
    have hdata := reprDec_data_e0 d hexp
    rw [if_pos hneg] at hdata
    have hdata2 : (reprDec d).data = '-' :: (natToChars d.mant.natAbs ++ '.' :: ['0']) := by
      rw [hdata]
      rfl
    refine ⟨⟨-(10 * d.mant.natAbs : Nat), 1⟩, ?_, ?_⟩
    · rw [pyFloat_of_neg_head _ _ hdata2, parse_render_e0]
      rfl
    · have hm : (d.mant.natAbs : Int) = -d.mant := Int.ofNat_natAbs_of_nonpos (by omega)
      have h1 : (⟨-(10 * d.mant.natAbs : Nat), 1⟩ : Dec) = ⟨10 * d.mant, 0 + 1⟩ := by
        congr 1
        push_cast [hm]
        ring
      rw [h1, toRat_ten_shift d.mant 0]
      have h2 : d = ⟨d.mant, 0⟩ := by
        cases d with
        | mk m e => simp at hexp; rw [hexp]
      rw [← h2]
  · -- negative mantissa, positive exp
    have hdata := reprDec_data_pos d hexp
    rw [if_pos hneg] at hdata
    have hdata2 : (reprDec d).data = '-' ::
        ((padZeros (natToChars d.mant.natAbs) (d.exp + 1)).take
            ((padZeros (natToChars d.mant.natAbs) (d.exp + 1)).length - d.exp) ++
          '.' :: (padZeros (natToChars d.mant.natAbs) (d.exp + 1)).drop
            ((padZeros (natToChars d.mant.natAbs) (d.exp + 1)).length - d.exp)) := by
      rw [hdata]
      rfl
    refine ⟨⟨-(d.mant.natAbs : Nat), d.exp⟩, ?_, ?_⟩
    · rw [pyFloat_of_neg_head _ _ hdata2, parse_render_pos _ _ hexp]
      rfl
    · have hm : (d.mant.natAbs : Int) = -d.mant := Int.ofNat_natAbs_of_nonpos (by omega)
      have h1 : (⟨-(d.mant.natAbs : Nat), d.exp⟩ : Dec) = ⟨d.mant, d.exp⟩ := by
        congr 1
        omega
      rw [h1]
  · -- nonnegative mantissa, exp 0
    have hdata := reprDec_data_e0 d hexp
    rw [if_neg hneg] at hdata
    simp only [List.nil_append] at hdata
    obtain ⟨c, cs, hcons⟩ := List.exists_cons_of_ne_nil (natToChars_ne_nil d.mant.natAbs)
    have hc : isDigitChar c = true :=
      natToChars_all_digits d.mant.natAbs c (by rw [hcons]; exact List.mem_cons_self c cs)
    have hdata2 : (reprDec d).data = c :: (cs ++ '.' :: ['0']) := by
      rw [hdata, hcons]
      rfl
    refine ⟨⟨(10 * d.mant.natAbs : Nat), 1⟩, ?_, ?_⟩
    · rw [pyFloat_of_digit_head _ _ _ hdata2 hc]
      have : (c :: (cs ++ '.' :: ['0'])) = natToChars d.mant.natAbs ++ '.' :: ['0'] := by
        rw [hcons]
        rfl
      rw [this, parse_render_e0]
    · have hm : (d.mant.natAbs : Int) = d.mant := Int.natAbs_of_nonneg (by omega)
      have h1 : (⟨(10 * d.mant.natAbs : Nat), 1⟩ : Dec) = ⟨10 * d.mant, 0 + 1⟩ := by
        congr 1
        push_cast [hm]
        ring
      rw [h1, toRat_ten_shift d.mant 0]
      have h2 : d = ⟨d.mant, 0⟩ := by
        cases d with
        | mk m e => simp at hexp; rw [hexp]
      rw [← h2]
  · -- nonnegative mantissa, positive exp
    have hdata := reprDec_data_pos d hexp
    rw [if_neg hneg] at hdata
    simp only [List.nil_append] at hdata
    obtain ⟨c, cs, hcons⟩ := List.exists_cons_of_ne_nil (by
      apply List.ne_nil_of_length_pos
      rw [List.length_take]
      have hlen := padZeros_length (natToChars d.mant.natAbs) (d.exp + 1)
      omega :
      (padZeros (natToChars d.mant.natAbs) (d.exp + 1)).take
        ((padZeros (natToChars d.mant.natAbs) (d.exp + 1)).length - d.exp) ≠ [])
    have hc : isDigitChar c = true := by
      apply padZeros_all_digits d.mant.natAbs (d.exp + 1)
      apply List.take_subset _ _
      rw [hcons]
      exact List.mem_cons_self c cs
    have hdata2 : (reprDec d).data = c :: (cs ++ '.' ::
        (padZeros (natToChars d.mant.natAbs) (d.exp + 1)).drop
          ((padZeros (natToChars d.mant.natAbs) (d.exp + 1)).length - d.exp)) := by
      rw [hdata, hcons]
      rfl
    refine ⟨⟨(d.mant.natAbs : Nat), d.exp⟩, ?_, ?_⟩
    · rw [pyFloat_of_digit_head _ _ _ hdata2 hc]
      have hre : (c :: (cs ++ '.' ::
          (padZeros (natToChars d.mant.natAbs) (d.exp + 1)).drop
            ((padZeros (natToChars d.mant.natAbs) (d.exp + 1)).length - d.exp))) =
          (padZeros (natToChars d.mant.natAbs) (d.exp + 1)).take
            ((padZeros (natToChars d.mant.natAbs) (d.exp + 1)).length - d.exp) ++
          '.' :: (padZeros (natToChars d.mant.natAbs) (d.exp + 1)).drop
            ((padZeros (natToChars d.mant.natAbs) (d.exp + 1)).length - d.exp) := by
        rw [hcons]
        rfl
      rw [hre, parse_render_pos _ _ hexp]
    · have hm : (d.mant.natAbs : Int) = d.mant := Int.natAbs_of_nonneg (by omega)
      have h1 : (⟨(d.mant.natAbs : Nat), d.exp⟩ : Dec) = ⟨d.mant, d.exp⟩ := by
        congr 1
      rw [h1]

theorem reprDec_chars (d : Dec) : ∀ c ∈ (reprDec d).data, 45 ≤ c.toNat ∧ c.toNat ≤ 57 := by
  have hsign : ∀ c ∈ (if d.mant < 0 then ['-'] else []), 45 ≤ c.toNat ∧ c.toNat ≤ 57 := by
    intro c hc
    by_cases hneg : d.mant < 0
    · rw [if_pos hneg] at hc
      simp at hc
      subst hc
      decide
    · rw [if_neg hneg] at hc
      simp at hc
  intro c hc
  by_cases hexp : d.exp = 0
  · rw [reprDec_data_e0 d hexp] at hc
    rcases List.mem_append.mp hc with h1 | h1
    · exact hsign c h1
    · rcases List.mem_append.mp h1 with h2 | h2
      · have hb := isDigitChar_bounds (natToChars_all_digits _ c h2)
        exact ⟨by omega, hb.2⟩
      · rcases List.mem_cons.mp h2 with rfl | h3
        · decide
        · simp at h3
          subst h3
          decide
  · rw [reprDec_data_pos d hexp] at hc
    rcases List.mem_append.mp hc with h1 | h1
    · exact hsign c h1
    · rcases List.mem_append.mp h1 with h2 | h2
      · have hb := isDigitChar_bounds (padZeros_all_digits _ _ c (List.take_subset _ _ h2))
        exact ⟨by omega, hb.2⟩
      · rcases List.mem_cons.mp h2 with rfl | h3
        · decide
        · have hb := isDigitChar_bounds (padZeros_all_digits _ _ c (List.drop_subset _ _ h3))
          exact ⟨by omega, hb.2⟩

theorem isPySpace_false {c : Char} (h : 45 ≤ c.toNat) : isPySpace c = false := by
  simp only [isPySpace, Bool.or_eq_false_iff, decide_eq_false_iff_not]
  refine ⟨⟨⟨⟨⟨?_, ?_⟩, ?_⟩, ?_⟩, ?_⟩, ?_⟩ <;> rintro rfl <;> revert h <;> decide

theorem dropWhile_all_false {p : Char → Bool} {l : List Char}
    (h : ∀ c ∈ l, p c = false) : l.dropWhile p = l := by
  cases l with
  | nil => rfl
  | cons a l => simp [List.dropWhile_cons, h a (List.mem_cons_self a l)]

theorem pyStrip_eq_self (s : String) (h : ∀ c ∈ s.data, isPySpace c = false) :
    pyStrip s = s := by
  unfold pyStrip
  rw [dropWhile_all_false h]
  rw [dropWhile_all_false (fun c hc => h c (List.mem_reverse.mp hc))]
  rw [List.reverse_reverse]

theorem reprDec_has_dot (d : Dec) : '.' ∈ (reprDec d).data := by
  by_cases hexp : d.exp = 0
  · rw [reprDec_data_e0 d hexp]
    apply List.mem_append_right
    apply List.mem_append_right
    exact List.mem_cons_self _ _
  · rw [reprDec_data_pos d hexp]
    apply List.mem_append_right
    apply List.mem_append_right
    exact List.mem_cons_self _ _

theorem reprDec_ne_empty (d : Dec) : reprDec d ≠ "" := by
  intro h
  have hdot := reprDec_has_dot d
  rw [h] at hdot
  exact absurd hdot (List.not_mem_nil _)

theorem pyStrip_reprDec (d : Dec) : pyStrip (reprDec d) = reprDec d :=
  pyStrip_eq_self _ (fun c hc => isPySpace_false (reprDec_chars d c hc).1)

theorem pyUpper_reprDec_ne_NA (d : Dec) : pyUpper (reprDec d) ≠ "N/A" := by
  intro h
  have hdata : ((reprDec d).data.map Char.toUpper) = ['N', '/', 'A'] := congrArg String.data h
  have hdot : Char.toUpper '.' ∈ (reprDec d).data.map Char.toUpper :=
    List.mem_map_of_mem Char.toUpper (reprDec_has_dot d)
  rw [hdata] at hdot
  revert hdot
  decide

theorem reprDec_last_digit (d : Dec) :
    ∃ c, (reprDec d).data.getLast? = some c ∧ isDigitChar c = true := by
  by_cases hexp : d.exp = 0
  · refine ⟨'0', ?_, by decide⟩
    rw [reprDec_data_e0 d hexp]
    rw [List.getLast?_append_of_ne_nil _ (by simp)]
    rw [List.getLast?_append_of_ne_nil _ (by simp)]
    rfl
  · have hBlen : ((padZeros (natToChars d.mant.natAbs) (d.exp + 1)).drop
        ((padZeros (natToChars d.mant.natAbs) (d.exp + 1)).length - d.exp)).length = d.exp := by
      rw [List.length_drop]
      have := padZeros_length (natToChars d.mant.natAbs) (d.exp + 1)
      omega
    have hBne : (padZeros (natToChars d.mant.natAbs) (d.exp + 1)).drop
        ((padZeros (natToChars d.mant.natAbs) (d.exp + 1)).length - d.exp) ≠ [] := by
      apply List.ne_nil_of_length_pos
      omega
    obtain ⟨c, hc, hcmem⟩ : ∃ c, ((padZeros (natToChars d.mant.natAbs) (d.exp + 1)).drop
        ((padZeros (natToChars d.mant.natAbs) (d.exp + 1)).length - d.exp)).getLast? = some c ∧
        c ∈ (padZeros (natToChars d.mant.natAbs) (d.exp + 1)).drop
          ((padZeros (natToChars d.mant.natAbs) (d.exp + 1)).length - d.exp) := by
      refine ⟨_, List.getLast?_eq_getLast _ hBne, List.getLast_mem hBne⟩
    refine ⟨c, ?_, padZeros_all_digits _ _ c (List.drop_subset _ _ hcmem)⟩
    rw [reprDec_data_pos d hexp]
    rw [List.getLast?_append_of_ne_nil _ (by simp)]
    rw [List.getLast?_append_of_ne_nil _ (by simp)]
    have hcons : ('.' :: (padZeros (natToChars d.mant.natAbs) (d.exp + 1)).drop
        ((padZeros (natToChars d.mant.natAbs) (d.exp + 1)).length - d.exp)) =
        ['.'] ++ (padZeros (natToChars d.mant.natAbs) (d.exp + 1)).drop
          ((padZeros (natToChars d.mant.natAbs) (d.exp + 1)).length - d.exp) := rfl
    rw [hcons, List.getLast?_append_of_ne_nil _ hBne]
    exact hc

theorem pyEndsWith_not_special (d : Dec) (x : Char) (hx : x.toNat < 48 ∨ 58 ≤ x.toNat) :
    pyEndsWith (reprDec d) x = false := by
  obtain ⟨c, hc, hcd⟩ := reprDec_last_digit d
  unfold pyEndsWith
  rw [hc]
  apply decide_eq_false
  intro h
  subst h
  have := isDigitChar_bounds hcd
  omega

/-- `clean_numeric_value` applied to a printed decimal recovers a
numerically equal decimal. -/
theorem clean_reprDec (d : Dec) :
    ∃ d', clean_numeric_value (reprDec d) = some d' ∧ d'.toRat = d.toRat := by
  obtain ⟨d', hp, hrat⟩ := pyFloat_reprDec d
  refine ⟨d', ?_, hrat⟩
  unfold clean_numeric_value
  rw [if_neg ?_]
  · rw [pyStrip_reprDec]
    have hx : pyEndsWith (reprDec d) 'x' = false :=
      pyEndsWith_not_special d 'x' (by right; decide)
    have hX : pyEndsWith (reprDec d) 'X' = false :=
      pyEndsWith_not_special d 'X' (by right; decide)
    have hpc : pyEndsWith (reprDec d) '%' = false :=
      pyEndsWith_not_special d '%' (by left; decide)
    simp only [hx, hX, hpc, Bool.or_false, Bool.false_eq_true, if_false]
    exact hp
  · rintro (h1 | h1)
    · exact absurd h1 (reprDec_ne_empty d)
    · rw [pyStrip_reprDec] at h1
      exact absurd h1 (pyUpper_reprDec_ne_NA d)

/-! ### Helper lemmas: rows, zips and dict building (for the round trip) -/

theorem map_lookup_zip (headers : List String) (vals : List Value)
    (hnd : headers.Nodup) (hlen : vals.length = headers.length) :
    headers.map (fun h => match lookupRow (headers.zip vals) h with
      | some v => renderValue v
      | none => "") = vals.map renderValue := by
  induction headers generalizing vals with
  | nil =>
    have hv : vals = [] := List.length_eq_zero.mp (by simpa using hlen)
    subst hv
    rfl
  | cons h hs ih =>
    cases vals with
    | nil => simp at hlen
    | cons v vs =>
      have hlen2 : vs.length = hs.length := by simpa using hlen
      have hnotmem : h ∉ hs := (List.nodup_cons.mp hnd).1
      have hnd2 : hs.Nodup := (List.nodup_cons.mp hnd).2
      simp only [List.zip_cons_cons, List.map_cons]
      have hhead : (match lookupRow ((h, v) :: hs.zip vs) h with
          | some v => renderValue v | none => "") = renderValue v := by
        unfold lookupRow
        rw [List.find?_cons_of_pos _ (by simp)]
      have htail : ∀ h2 ∈ hs, (match lookupRow ((h, v) :: hs.zip vs) h2 with
          | some v => renderValue v | none => "") =
          (match lookupRow (hs.zip vs) h2 with | some v => renderValue v | none => "") := by
        intro h2 hm
        have hne : h ≠ h2 := fun he => hnotmem (he ▸ hm)
        unfold lookupRow
        rw [List.find?_cons_of_neg _ (by simp; exact hne)]
      rw [hhead]
      congr 1
      rw [List.map_congr_left htail]
      exact ih vs hnd2 hlen2

theorem dictInsert_append (row : Row) (k : String) (v : Value)
    (h : ∀ p ∈ row, p.1 ≠ k) : dictInsert row k v = row ++ [(k, v)] := by
  unfold dictInsert
  rw [if_neg]
  intro hc
  rw [List.any_eq_true] at hc
  obtain ⟨p, hp, he⟩ := hc
  exact h p hp (by simpa using he)

theorem cleanRowGo_eq (pairs : List (String × String)) :
    ∀ (acc : Row) (i : Nat),
      (pairs.map Prod.fst).Nodup →
      (∀ p ∈ pairs, ∀ q ∈ acc, q.1 ≠ p.1) →
      cleanRowGo acc i pairs = acc ++ cleanPairs i pairs := by
  induction pairs with
  | nil =>
    intro acc i _ _
    simp [cleanRowGo, cleanPairs]
  | cons pv rest ih =>
    intro acc i hnd hdisj
    obtain ⟨h, v⟩ := pv
    have hnd2 : h ∉ rest.map Prod.fst ∧ (rest.map Prod.fst).Nodup := by
      rw [List.map_cons] at hnd
      exact List.nodup_cons.mp hnd
    have hins : dictInsert acc h (cleanCell i v) = acc ++ [(h, cleanCell i v)] :=
      dictInsert_append acc h _ (fun q hq => hdisj (h, v) (List.mem_cons_self _ _) q hq)
    show cleanRowGo (dictInsert acc h (cleanCell i v)) (i + 1) rest = _
    rw [hins]
    rw [ih (acc ++ [(h, cleanCell i v)]) (i + 1) hnd2.2 ?_]
    · rw [List.append_assoc]
      rfl
    · intro p hp q hq
      rcases List.mem_append.mp hq with hq1 | hq2
      · exact hdisj p (List.mem_cons_of_mem _ hp) q hq1
      · have hq3 : q = (h, cleanCell i v) := by simpa using hq2
        subst hq3
        intro he
        apply hnd2.1
        have he2 : h = p.1 := he
        rw [he2]
        exact List.mem_map_of_mem Prod.fst hp

theorem cleanRow_eq (headers : List String) (rec : List String)
    (hnd : headers.Nodup) (hlen : rec.length = headers.length) :
    cleanRow headers rec = cleanPairs 0 (headers.zip rec) := by
  unfold cleanRow
  rw [cleanRowGo_eq _ [] 0 ?_ ?_]
  · rfl
  · rw [List.map_fst_zip _ _ (by omega)]
    exact hnd
  · intro p hp q hq
    simp at hq

theorem cleanPairs_render_nums : ∀ (hs : List String) (vs : List Value) (i : Nat), i ≠ 0 →
    vs.length = hs.length → (∀ u ∈ vs, ∃ d, u = Value.num d) →
    ∃ vs2, cleanPairs i (hs.zip (vs.map renderValue)) = hs.zip vs2 ∧
      vs2.length = vs.length ∧ List.Forall₂ ValEq vs2 vs := by
  intro hs
  induction hs with
  | nil =>
    intro vs i hi hlen hnum
    have hv : vs = [] := List.length_eq_zero.mp (by simpa using hlen)
    subst hv
    exact ⟨[], rfl, rfl, List.Forall₂.nil⟩
  | cons h hs ih =>
    intro vs i hi hlen hnum
    cases vs with
    | nil => simp at hlen
    | cons u vs =>
      obtain ⟨d, rfl⟩ := hnum u (List.mem_cons_self u vs)
      obtain ⟨d', hd', hrat⟩ := clean_reprDec d
      obtain ⟨vs2, hvs2, hl2, hfa⟩ := ih vs (i + 1) (by omega) (by simpa using hlen)
        (fun u hu => hnum u (List.mem_cons_of_mem _ hu))
      have hcell : cleanCell i (renderValue (Value.num d)) = Value.num d' := by
        unfold cleanCell
        rw [if_neg hi]
        show (match clean_numeric_value (reprDec d) with
          | some e => Value.num e | none => Value.null) = _
        rw [hd']
      refine ⟨Value.num d' :: vs2, ?_, by simp [hl2], ?_⟩
      · simp only [List.map_cons, List.zip_cons_cons]
        show (h, cleanCell i (renderValue (Value.num d))) ::
          cleanPairs (i + 1) (hs.zip (vs.map renderValue)) = _
        rw [hcell, hvs2]
      · exact List.Forall₂.cons (show ValEq (Value.num d') (Value.num d) from hrat) hfa

theorem cleanPairs_render_good (hs : List String) (vs : List Value)
    (hlen : vs.length = hs.length) (hgood : GoodRow vs) :
    ∃ vs2, cleanPairs 0 (hs.zip (vs.map renderValue)) = hs.zip vs2 ∧
      vs2.length = vs.length ∧ List.Forall₂ ValEq vs2 vs := by
  cases vs with
  | nil =>
    refine ⟨[], ?_, rfl, List.Forall₂.nil⟩
    simp [cleanPairs, List.zip_nil_right]
  | cons v vs =>
    cases hs with
    | nil => simp at hlen
    | cons h hs =>
      have hgood2 : (∃ s, v = Value.str s ∧ pyStrip s = s) ∧
          (∀ u ∈ vs, ∃ d, u = Value.num d) := hgood
      obtain ⟨⟨s, rfl, hst⟩, hnum⟩ := hgood2
      obtain ⟨vs2, hvs2, hl2, hfa⟩ :=
        cleanPairs_render_nums hs vs 1 (by omega) (by simpa using hlen) hnum
      have hcell : cleanCell 0 (renderValue (Value.str s)) = Value.str s := by
        unfold cleanCell
        rw [if_pos rfl]
        show Value.str (pyStrip s) = Value.str s
        rw [hst]
      refine ⟨Value.str s :: vs2, ?_, by simp [hl2], ?_⟩
      · simp only [List.map_cons, List.zip_cons_cons]
        show (h, cleanCell 0 (renderValue (Value.str s))) ::
          cleanPairs 1 (hs.zip (vs.map renderValue)) = _
        rw [hcell, hvs2]
      · exact List.Forall₂.cons (show ValEq (Value.str s) (Value.str s) from rfl) hfa

theorem rendered_nonblank (vs : List Value) (h2 : 2 ≤ vs.length) (hgood : GoodRow vs) :
    anyField (vs.map renderValue) = true := by
  cases vs with
  | nil => simp at h2
  | cons v vs =>
    cases vs with
    | nil => simp at h2
    | cons u vs =>
      have hgood2 : (∃ s, v = Value.str s ∧ pyStrip s = s) ∧
          (∀ w ∈ u :: vs, ∃ d, w = Value.num d) := hgood
      obtain ⟨d, rfl⟩ := hgood2.2 u (List.mem_cons_self u vs)
      refine List.any_eq_true.mpr ⟨renderValue (Value.num d), ?_, ?_⟩
      · simp only [List.map_cons]
        exact List.mem_cons_of_mem _ (List.mem_cons_self _ _)
      · show decide (renderValue (Value.num d) ≠ "") = true
        apply decide_eq_true
        show reprDec d ≠ ""
        exact reprDec_ne_empty d

theorem cleanRows_all_kept (headers : List String) (recs : List (List String))
    (h : ∀ r ∈ recs, anyField r = true) :
    cleanRows headers recs = recs.map (cleanRow headers) := by
  induction recs with
  | nil => rfl
  | cons r rs ih =>
    simp [cleanRows, h r (List.mem_cons_self r rs),
      ih (fun x hx => h x (List.mem_cons_of_mem r hx))]

theorem rows_roundtrip (headers : List String) (hnd : headers.Nodup) :
    ∀ vrows : List (List Value),
      (∀ vr ∈ vrows, vr.length = headers.length) →
      (∀ vr ∈ vrows, GoodRow vr) →
      ∃ vrows2, (vrows.map (fun vr => cleanRow headers (vr.map renderValue))) =
          vrows2.map (fun vr => headers.zip vr) ∧
        vrows2.length = vrows.length ∧
        List.Forall₂ (List.Forall₂ ValEq) vrows2 vrows := by
  intro vrows
  induction vrows with
  | nil =>
    intro _ _
    exact ⟨[], rfl, rfl, List.Forall₂.nil⟩
  | cons vr vrs ih =>
    intro hlen hgood
    have hlen1 := hlen vr (List.mem_cons_self vr vrs)
    obtain ⟨vs2, hvs2, hl2, hfa⟩ :=
      cleanPairs_render_good headers vr hlen1 (hgood vr (List.mem_cons_self vr vrs))
    obtain ⟨vrows2, hmap, hlenr, hfar⟩ := ih (fun x hx => hlen x (List.mem_cons_of_mem vr hx))
      (fun x hx => hgood x (List.mem_cons_of_mem vr hx))
    refine ⟨vs2 :: vrows2, ?_, by simp [hlenr], List.Forall₂.cons hfa hfar⟩
    simp only [List.map_cons]
    rw [cleanRow_eq headers (vr.map renderValue) hnd (by simp [hlen1]), hvs2, hmap]

theorem export_rendered (headers : List String) (vrows : List (List Value))
    (hnd : headers.Nodup) (hlen : ∀ vr ∈ vrows, vr.length = headers.length) :
    export_to_csv headers (vrows.map (fun vr => headers.zip vr)) =
      headers :: vrows.map (fun vr => vr.map renderValue) := by
  unfold export_to_csv
  congr 1
  rw [List.map_map]
  apply List.map_congr_left
  intro vr hvr
  exact map_lookup_zip headers vr hnd (hlen vr hvr)

/-! ### Claim theorems: C7 (CSV round trip) -/

/-- C7 counterexample: a table with no Null values whose identifier cell
carries leading whitespace does not survive the round trip: the reader
trims the first column on re-reading, so `" x"` comes back as `"x"` and
the numeric cell comes back as the value-equal `⟨10, 1⟩` (the printed
`"1.0"` re-parsed), refuting "yields the same headers and rows ... in
every cell" as universally stated. -/
theorem C7_roundtrip_counterexample :
    read_and_clean_data (export_to_csv ["a", "b"]
        [[("a", Value.str " x"), ("b", Value.num ⟨1, 0⟩)]]) =
      .ok (["a", "b"], [[("a", Value.str "x"), ("b", Value.num ⟨10, 1⟩)]]) ∧
    Value.str "x" ≠ Value.str " x" ∧
    ¬ ValEq (Value.str "x") (Value.str " x") := by
  refine ⟨rfl, by decide, ?_⟩
  intro h
  have h2 : ("x" : String) = " x" := h
  exact absurd h2 (by decide)

/-- C7 (amended): for every table whose headers are distinct and trimmed
with at least two columns, and whose rows are full-width with a trimmed
text identifier and numeric (non-Null) values elsewhere, exporting to
CSV and re-reading with the same reader yields the same headers and
rows that are numerically equal (not necessarily representation-equal)
in every cell. -/
theorem C7_roundtrip_amended (headers : List String) (vrows : List (List Value))
    (hnd : headers.Nodup)
    (htrim : ∀ h ∈ headers, pyStrip h = h)
    (hlen2 : 2 ≤ headers.length)
    (hrowlen : ∀ vr ∈ vrows, vr.length = headers.length)
    (hgood : ∀ vr ∈ vrows, GoodRow vr) :
    ∃ vrows2 : List (List Value),
      read_and_clean_data (export_to_csv headers (vrows.map (fun vr => headers.zip vr))) =
        .ok (headers, vrows2.map (fun vr => headers.zip vr)) ∧
      vrows2.length = vrows.length ∧
      List.Forall₂ (List.Forall₂ ValEq) vrows2 vrows := by
  obtain ⟨vrows2, hmap, hlenr, hfar⟩ := rows_roundtrip headers hnd vrows hrowlen hgood
  refine ⟨vrows2, ?_, hlenr, hfar⟩
  rw [export_rendered headers vrows hnd hrowlen]
  show Except.ok (headers.map pyStrip,
    cleanRows (headers.map pyStrip) (vrows.map (fun vr => vr.map renderValue))) = _
  have hid : headers.map pyStrip = headers := by
    rw [List.map_congr_left htrim]
    exact List.map_id headers
  rw [hid]
  rw [cleanRows_all_kept headers _ ?_]
  · rw [List.map_map]
    show Except.ok (headers, vrows.map (fun vr => cleanRow headers (vr.map renderValue))) = _
    rw [hmap]
  · intro r hr
    obtain ⟨vr, hvr, rfl⟩ := List.mem_map.mp hr
    exact rendered_nonblank vr (by rw [hrowlen vr hvr]; exact hlen2) (hgood vr hvr)

/-- C7 witness: the amended round trip at a concrete two-column table. -/
theorem C7_roundtrip_witness :
    ∃ vrows2 : List (List Value),
      read_and_clean_data (export_to_csv ["a", "b"]
          (([[Value.str "x", Value.num ⟨1, 0⟩]] : List (List Value)).map
            (fun vr => (["a", "b"] : List String).zip vr))) =
        .ok (["a", "b"], vrows2.map (fun vr => (["a", "b"] : List String).zip vr)) ∧
      vrows2.length = ([[Value.str "x", Value.num ⟨1, 0⟩]] : List (List Value)).length ∧
      List.Forall₂ (List.Forall₂ ValEq) vrows2 [[Value.str "x", Value.num ⟨1, 0⟩]] :=
  C7_roundtrip_amended ["a", "b"] [[Value.str "x", Value.num ⟨1, 0⟩]]
    (by decide) (by decide) (by decide) (by decide)
    (by
      intro vr hvr
      have hv : vr = [Value.str "x", Value.num ⟨1, 0⟩] := by simpa using hvr
      subst hv
      refine ⟨⟨"x", rfl, rfl⟩, ?_⟩
      intro u hu
      have hu2 : u = Value.num ⟨1, 0⟩ := by simpa using hu
      exact ⟨⟨1, 0⟩, hu2⟩)

end DataClean
